import Mathlib

/-!
Verification development for the AryaLabsHQ/design-system repository.

The repository is a React design-system monorepo.  The code embedded here:
* the variant resolution utility (class-variance-authority style, published
  from packages/ui/src/utils) and the class-name merging helper, both
  modelled from the spec since the utils directory is not among the
  provided source files;
* the CustomButton primitive wrapper (source: src/unnamed/part_000,
  section 2 "Component Architecture", lines 307-334);
* the Button story default export (source: src/README.md, lines 345-359);
* the composed SearchInput clear action, modelled from the spec.
-/

namespace DesignSystem

/-! ## Variant resolution utility -/

/-- Modelled from the spec: a Variant Table entry set for one style key.
The spec (section 3, Data Model) describes a mapping from a discrete set of
style keys (variant, size) to class-name fragments, with a declared default
value per key; the utils source is not among the provided files. -/
structure VariantKey where
  name : String
  entries : List (String × String)
  default : String

/-- Look a variant value up among the declared entries of a key, returning
the class-name fragment when the value is declared. -/
def lookupEntry (entries : List (String × String)) (v : String) : Option String :=
  (entries.find? (fun e => e.fst = v)).map Prod.snd

/-- Modelled from the spec: resolution of a single key.  A selected declared
value yields its fragment; an unknown value or an unspecified key falls back
to the fragment of the declared default value. -/
def resolveKey (k : VariantKey) (sel : Option String) : Option String :=
  match sel with
  | some v =>
      match lookupEntry k.entries v with
      | some f => some f
      | none => lookupEntry k.entries k.default
  | none => lookupEntry k.entries k.default

/-- Modelled from the spec: the ordered list of class parts produced by the
variant resolution utility: base classes, then one resolved fragment per
declared key of the table, then the user-supplied override classes. -/
def resolveParts (base : List String) (table : List VariantKey)
    (sel : String → Option String) (overrides : List String) : List String :=
  base ++ table.filterMap (fun k => resolveKey k (sel k.name)) ++ overrides

/-- Join class parts with single spaces, skipping empty parts (clsx-style). -/
def joinNonempty : List String → String
  | [] => ""
  | [c] => c
  | c :: rest => c ++ " " ++ joinNonempty rest

/-- Build the final class string from a list of parts. -/
def joinClasses (parts : List String) : String :=
  joinNonempty (parts.filter (fun c => c ≠ ""))

/-- Modelled from the spec: the variant resolution utility as a whole, a pure
function of (base classes, variant table, selected keys, overrides). -/
def resolveClassString (base : List String) (table : List VariantKey)
    (sel : String → Option String) (overrides : List String) : String :=
  joinClasses (resolveParts base table sel overrides)

/-- Modelled from the spec: conflict-aware class merging (tailwind-merge
style, wrapped by the cn utility).  Classes are grouped by a conflict-group
function; among classes of the same group, the last one wins and earlier
ones are dropped. -/
def mergeClasses (group : String → String) : List String → List String
  | [] => []
  | c :: rest =>
      if rest.any (fun d => group d = group c) then mergeClasses group rest
      else c :: mergeClasses group rest

/-- Modelled from the spec: variant resolution followed by conflict-aware
merging, as performed when user overrides are passed through cn. -/
def resolveMerged (group : String → String) (base : List String)
    (table : List VariantKey) (sel : String → Option String)
    (overrides : List String) : List String :=
  mergeClasses group (resolveParts base table sel overrides)

/-! ## CustomButton primitive wrapper (embedded from src/unnamed/part_000) -/

/-- Rendered output: a single DOM node. -/
inductive Node where
  | button (ref : Option Nat) (className : String) (disabled : Bool)
      (content : String) : Node
deriving DecidableEq

/-- Input accepted by the base Button primitive. -/
structure ButtonInput where
  ref : Option Nat
  className : String
  disabled : Bool
  content : String

/-- Modelled from the spec: the base Button primitive (shadcn, not among the
provided source files) renders exactly one root button element and forwards
the supplied external reference to it unconditionally. -/
def renderButton (i : ButtonInput) : Node :=
  Node.button i.ref i.className i.disabled i.content

/-- Props of CustomButton, embedded from src/unnamed/part_000 lines 302-317:
children, isLoading, loadingText (default "Loading..."), className,
disabled, extending the base button props. -/
structure CustomButtonProps where
  children : String := ""
  isLoading : Bool := false
  loadingText : String := "Loading..."
  className : Option String := none
  disabled : Bool := false

/-- CustomButton render, embedded from src/unnamed/part_000 lines 318-331:
renders a Button with the forwarded ref, className
cn("relative", isLoading && "cursor-not-allowed", className),
disabled = disabled || isLoading, and content = isLoading ? loadingText
: children. -/
def renderCustomButton (p : CustomButtonProps) (ref : Option Nat) : Node :=
  renderButton
    { ref := ref
      className := joinClasses
        (["relative"]
          ++ (if p.isLoading then ["cursor-not-allowed"] else [])
          ++ (match p.className with | some c => [c] | none => []))
      disabled := p.disabled || p.isLoading
      content := if p.isLoading then p.loadingText else p.children }

/-- Reference attached to a rendered node. -/
def nodeRef : Node → Option Nat
  | Node.button r _ _ _ => r

/-- Disabled flag of a rendered node. -/
def nodeDisabled : Node → Bool
  | Node.button _ _ d _ => d

/-- Visible content of a rendered node. -/
def nodeContent : Node → String
  | Node.button _ _ _ c => c

/-! ## Button story default export (embedded from src/README.md) -/

/-- One controllable configuration field of a story: control type and the
allowed values. -/
structure ArgType where
  control : String
  options : List String
deriving DecidableEq

/-- Shape of a story module default export: an optional display title, the
wrapped component, and the table of controllable configuration fields. -/
structure StoryMeta where
  title : Option String := none
  component : String
  argTypes : List (String × ArgType)

/-- The Button story default export, embedded from src/README.md lines
345-359: component Button, argTypes for variant and size; the meta object
declares no title field. -/
def buttonMeta : StoryMeta :=
  { component := "Button"
    argTypes :=
      [ ("variant",
          { control := "radio"
            options := ["default", "destructive", "outline", "secondary",
                        "ghost", "link"] }),
        ("size",
          { control := "radio"
            options := ["default", "sm", "lg", "icon"] }) ] }

/-! ## Composed SearchInput clear action -/

/-- Outcome of invoking the clear action: the value the component ends up
holding and the list of arguments onChange was invoked with, in order. -/
structure ClearResult where
  newValue : String
  onChangeCalls : List String
deriving DecidableEq

/-- Modelled from the spec: the composed search input components clear
action (packages/ui/src/components/composed, not among the provided source
files).  Per the spec, invoking clear on a controlled search input resets
the controlled value to the empty string and invokes onChange with the
empty string exactly once. -/
def searchInputClear (_current : String) : ClearResult :=
  { newValue := "", onChangeCalls := [""] }

/-! ## Concrete example inputs (Button variant table from the story options) -/

/-- Modelled from the spec: the variant key of the Button table.  The value
set comes from the Button story argTypes (src/README.md lines 348-351); the
fragment for outline is the one the spec documents ("border"); the other
values carry distinct representative fragments. -/
def variantKeyButton : VariantKey :=
  { name := "variant"
    entries :=
      [ ("default", "bg-primary"), ("destructive", "bg-destructive"),
        ("outline", "border"), ("secondary", "bg-secondary"),
        ("ghost", "hover-ghost"), ("link", "underline-link") ]
    default := "default" }

/-- Modelled from the spec: the size key of the Button table.  The value set
comes from the Button story argTypes (src/README.md lines 352-355); the
fragment for lg is the one the spec documents ("h-12 px-8"); the other
values carry distinct representative fragments. -/
def sizeKeyButton : VariantKey :=
  { name := "size"
    entries :=
      [ ("default", "h-9 px-4"), ("sm", "h-8 px-3"),
        ("lg", "h-12 px-8"), ("icon", "h-9 w-9") ]
    default := "default" }

/-- The Button variant table with its two declared keys. -/
def buttonVariantTable : List VariantKey := [variantKeyButton, sizeKeyButton]

/-- The selection of the spec example: variant outline, size lg. -/
def selOutlineLg : String → Option String := fun n =>
  if n = "variant" then some "outline"
  else if n = "size" then some "lg"
  else none

/-- A selection that picks an undeclared value for the variant key. -/
def selUnknownVariant : String → Option String := fun n =>
  if n = "variant" then some "bogus" else none

/-- The empty selection. -/
def selNone : String → Option String := fun _ => none

/-- A concrete conflict-group function: the two background classes share the
group bg; every other class is its own group. -/
def groupBg : String → String := fun s =>
  if s = "bg-red" then "bg" else if s = "bg-blue" then "bg" else s

/-! ## Helper lemmas -/

/-- Joining a list whose head is a nonempty class yields a nonempty string. -/
theorem joinNonempty_cons_ne (c : String) (rest : List String) (hc : c ≠ "") :
    joinNonempty (c :: rest) ≠ "" := by
  cases rest with
  | nil => simpa [joinNonempty] using hc
  | cons r rs =>
      intro h
      have hlen := congrArg String.length h
      rw [show joinNonempty (c :: r :: rs) = c ++ " " ++ joinNonempty (r :: rs) from rfl]
        at hlen
      simp only [String.length_append] at hlen
      have hone : (" " : String).length = 1 := rfl
      rw [hone] at hlen
      simp at hlen

/-- When a function is some on every element, filterMap keeps the length. -/
theorem length_filterMap_of_isSome {α β : Type} (f : α → Option β) :
    ∀ l : List α, (∀ a ∈ l, (f a).isSome) → (l.filterMap f).length = l.length := by
  intro l
  induction l with
  | nil => intro _; rfl
  | cons a l ih =>
      intro h
      obtain ⟨b, hb⟩ := Option.isSome_iff_exists.mp (h a (List.mem_cons_self a l))
      rw [List.filterMap_cons, hb]
      simp [ih (fun x hx => h x (List.mem_cons_of_mem a hx))]

/-- Merged class lists only contain classes of the input list. -/
theorem mem_of_mem_mergeClasses {g : String → String} {c : String} :
    ∀ {l : List String}, c ∈ mergeClasses g l → c ∈ l := by
  intro l
  induction l with
  | nil => intro h; simp [mergeClasses] at h
  | cons x rest ih =>
      intro h
      simp only [mergeClasses] at h
      split at h
      · exact List.mem_cons_of_mem x (ih h)
      · rcases List.mem_cons.mp h with hcx | hmem
        · exact hcx ▸ List.mem_cons_self x rest
        · exact List.mem_cons_of_mem x (ih hmem)

/-- A class with no later class of the same group survives merging. -/
theorem mem_mergeClasses_of_no_later_conflict (g : String → String) (c : String) :
    ∀ (l₁ l₂ : List String), (∀ d ∈ l₂, g d ≠ g c) →
      c ∈ mergeClasses g (l₁ ++ c :: l₂) := by
  intro l₁
  induction l₁ with
  | nil =>
      intro l₂ hl₂
      have hany : l₂.any (fun d => g d = g c) = false := by
        simp only [List.any_eq_false, decide_eq_true_eq]
        exact hl₂
      simp only [List.nil_append, mergeClasses, hany]
      simp
  | cons x l₁ ih =>
      intro l₂ hl₂
      simp only [List.cons_append, mergeClasses]
      split
      · exact ih l₂ hl₂
      · exact List.mem_cons_of_mem x (ih l₂ hl₂)

/-- A class followed later by a class of the same group is merged away,
provided it does not itself recur among the later classes. -/
theorem not_mem_mergeClasses_of_later_conflict (g : String → String) (c : String) :
    ∀ (l₁ l₂ : List String), (∃ d ∈ l₂, g d = g c) → c ∉ l₂ →
      c ∉ mergeClasses g (l₁ ++ l₂) := by
  intro l₁
  induction l₁ with
  | nil =>
      intro l₂ _ hc hmem
      exact hc (mem_of_mem_mergeClasses hmem)
  | cons x l₁ ih =>
      intro l₂ hconf hc
      simp only [List.cons_append, mergeClasses, List.append_eq]
      by_cases hany : ((l₁ ++ l₂).any (fun d => g d = g x)) = true
      · rw [if_pos hany]
        exact ih l₂ hconf hc
      · rw [if_neg hany]
        intro hmem
        rcases List.mem_cons.mp hmem with hcx | hmem'
        · obtain ⟨d, hd, hgd⟩ := hconf
          simp only [List.any_eq_true, decide_eq_true_eq, not_exists] at hany
          exact hany d ⟨List.mem_append_right l₁ hd, hcx ▸ hgd⟩
        · exact ih l₂ hconf hc hmem'

/-! ## Claim theorems -/

/-- C1: for every supported combination of declared variant keys (every key
selected with a declared value), the variant resolution utility applied to
nonempty base classes, the variant table and the selected keys returns a
nonempty class string that contains all base classes and exactly one
class-name fragment per declared key. -/
theorem variant_resolution_supported_combinations
    (base : List String) (table : List VariantKey) (sel : String → Option String)
    (hb : base ≠ []) (hbne : ∀ c ∈ base, c ≠ "")
    (hsel : ∀ k ∈ table, ∃ v, sel k.name = some v ∧ (lookupEntry k.entries v).isSome) :
    resolveClassString base table sel [] ≠ "" ∧
    (∀ c ∈ base, c ∈ resolveParts base table sel []) ∧
    (table.filterMap (fun k => resolveKey k (sel k.name))).length = table.length ∧
    (∀ k ∈ table, ∀ f, resolveKey k (sel k.name) = some f →
      f ∈ resolveParts base table sel []) := by
  have hsome : ∀ k ∈ table, (resolveKey k (sel k.name)).isSome := by
    intro k hk
    obtain ⟨v, hv, hs⟩ := hsel k hk
    obtain ⟨f, hf⟩ := Option.isSome_iff_exists.mp hs
    rw [hv]
    simp only [resolveKey]
    rw [hf]
    rfl
  refine ⟨?_, ?_, ?_, ?_⟩
  · obtain ⟨b, bs, rfl⟩ := List.exists_cons_of_ne_nil hb
    have hb1 : b ≠ "" := hbne b (List.mem_cons_self b bs)
    have hparts : resolveParts (b :: bs) table sel [] =
        b :: (bs ++ table.filterMap (fun k => resolveKey k (sel k.name))) := by
      simp [resolveParts]
    rw [resolveClassString, hparts, joinClasses,
        List.filter_cons_of_pos (by simpa using hb1)]
    exact joinNonempty_cons_ne b _ hb1
  · intro c hc
    simp only [resolveParts, List.append_nil]
    exact List.mem_append_left _ hc
  · exact length_filterMap_of_isSome _ table hsome
  · intro k hk f hf
    simp only [resolveParts, List.append_nil]
    exact List.mem_append_right base (List.mem_filterMap.mpr ⟨k, hk, hf⟩)

/-- Witness for C1 at the Button table with the outline and lg selection. -/
theorem variant_resolution_supported_combinations_witness :
    resolveClassString ["inline-flex"] buttonVariantTable selOutlineLg [] ≠ "" ∧
    (∀ c ∈ (["inline-flex"] : List String),
      c ∈ resolveParts ["inline-flex"] buttonVariantTable selOutlineLg []) ∧
    (buttonVariantTable.filterMap
      (fun k => resolveKey k (selOutlineLg k.name))).length =
        buttonVariantTable.length ∧
    (∀ k ∈ buttonVariantTable, ∀ f, resolveKey k (selOutlineLg k.name) = some f →
      f ∈ resolveParts ["inline-flex"] buttonVariantTable selOutlineLg []) :=
  variant_resolution_supported_combinations ["inline-flex"] buttonVariantTable
    selOutlineLg (by simp) (by simp)
    (by
      intro k hk
      rcases List.mem_cons.mp hk with rfl | hk
      · exact ⟨"outline", rfl, rfl⟩
      rcases List.mem_cons.mp hk with rfl | hk
      · exact ⟨"lg", rfl, rfl⟩
      · simp at hk)

/-- C2: a variant key selected with an undeclared value resolves to the
fragment of the declared default value, and that fragment appears in the
resolved class parts rather than the key being omitted. -/
theorem variant_resolution_unknown_value_fallback
    (base overrides : List String) (table : List VariantKey)
    (sel : String → Option String) (k : VariantKey) (v d : String)
    (hk : k ∈ table) (hv : sel k.name = some v)
    (hunknown : lookupEntry k.entries v = none)
    (hd : lookupEntry k.entries k.default = some d) :
    resolveKey k (sel k.name) = some d ∧
    d ∈ resolveParts base table sel overrides := by
  have hres : resolveKey k (sel k.name) = some d := by
    rw [hv]
    simp only [resolveKey]
    rw [hunknown, hd]
  refine ⟨hres, ?_⟩
  simp only [resolveParts]
  exact List.mem_append_left _
    (List.mem_append_right base (List.mem_filterMap.mpr ⟨k, hk, hres⟩))

/-- Witness for C2: the bogus variant value falls back to bg-primary. -/
theorem variant_resolution_unknown_value_fallback_witness :
    resolveKey variantKeyButton (selUnknownVariant variantKeyButton.name) =
      some "bg-primary" ∧
    "bg-primary" ∈ resolveParts [] [variantKeyButton] selUnknownVariant [] :=
  variant_resolution_unknown_value_fallback [] [] [variantKeyButton]
    selUnknownVariant variantKeyButton "bogus" "bg-primary"
    (List.mem_cons_self _ _) rfl rfl rfl

/-- C3: the merged variant resolution is a pure function of exactly (base
classes, variant table, selected keys, overrides): equal inputs give equal
outputs; and when the override classes occupy pairwise distinct conflict
groups, every override class appears in the final merged class list, while
any computed class (base or variant fragment) that conflicts with some
override, and is not itself among the overrides, is dropped. -/
theorem variant_resolution_pure_overrides_win
    (group : String → String) (base overrides : List String)
    (table : List VariantKey) (sel : String → Option String)
    (hnodup : (overrides.map group).Nodup) :
    (∀ base₂ table₂ sel₂ overrides₂, base = base₂ → table = table₂ →
      sel = sel₂ → overrides = overrides₂ →
      resolveMerged group base table sel overrides =
        resolveMerged group base₂ table₂ sel₂ overrides₂) ∧
    (∀ o ∈ overrides, o ∈ resolveMerged group base table sel overrides) ∧
    (∀ c, c ∈ base ++ table.filterMap (fun k => resolveKey k (sel k.name)) →
      c ∉ overrides → (∃ o ∈ overrides, group o = group c) →
      c ∉ resolveMerged group base table sel overrides) := by
  refine ⟨?_, ?_, ?_⟩
  · intro base₂ table₂ sel₂ overrides₂ hb ht hs ho
    subst hb; subst ht; subst hs; subst ho
    rfl
  · intro o ho
    obtain ⟨s, t, rfl⟩ := List.append_of_mem ho
    have hsub : ((o :: t).map group).Nodup := by
      have hsl : List.Sublist ((o :: t).map group) ((s ++ o :: t).map group) :=
        (List.sublist_append_right s (o :: t)).map group
      exact hnodup.sublist hsl
    have hnot : group o ∉ t.map group := (List.nodup_cons.mp hsub).1
    have hlater : ∀ d ∈ t, group d ≠ group o := by
      intro d hd hgd
      exact hnot (hgd ▸ List.mem_map_of_mem group hd)
    have hsplit :
        resolveParts base table sel (s ++ o :: t) =
          (base ++ table.filterMap (fun k => resolveKey k (sel k.name)) ++ s)
            ++ o :: t := by
      simp [resolveParts, List.append_assoc]
    show o ∈ mergeClasses group (resolveParts base table sel (s ++ o :: t))
    rw [hsplit]
    exact mem_mergeClasses_of_no_later_conflict group o _ t hlater
  · intro c hc hcnot hconf
    obtain ⟨o, ho, hgo⟩ := hconf
    show c ∉ mergeClasses group (resolveParts base table sel overrides)
    have hsplit :
        resolveParts base table sel overrides =
          (base ++ table.filterMap (fun k => resolveKey k (sel k.name)))
            ++ overrides := rfl
    rw [hsplit]
    exact not_mem_mergeClasses_of_later_conflict group c _ overrides
      ⟨o, ho, hgo⟩ hcnot

/-- Witness for C3: the override bg-blue beats the computed bg-red. -/
theorem variant_resolution_pure_overrides_win_witness :
    (∀ base₂ table₂ sel₂ overrides₂, (["bg-red"] : List String) = base₂ →
      ([] : List VariantKey) = table₂ → selNone = sel₂ →
      (["bg-blue"] : List String) = overrides₂ →
      resolveMerged groupBg ["bg-red"] [] selNone ["bg-blue"] =
        resolveMerged groupBg base₂ table₂ sel₂ overrides₂) ∧
    (∀ o ∈ (["bg-blue"] : List String),
      o ∈ resolveMerged groupBg ["bg-red"] [] selNone ["bg-blue"]) ∧
    (∀ c, c ∈ (["bg-red"] : List String) ++
        ([] : List VariantKey).filterMap (fun k => resolveKey k (selNone k.name)) →
      c ∉ (["bg-blue"] : List String) →
      (∃ o ∈ (["bg-blue"] : List String), groupBg o = groupBg c) →
      c ∉ resolveMerged groupBg ["bg-red"] [] selNone ["bg-blue"]) :=
  variant_resolution_pure_overrides_win groupBg ["bg-red"] ["bg-blue"] [] selNone
    (by simp)

/-- C4: the variant resolution is deterministic: resolving twice with
identical inputs yields identical output strings. -/
theorem variant_resolution_deterministic
    (base₁ base₂ : List String) (table₁ table₂ : List VariantKey)
    (sel₁ sel₂ : String → Option String) (ov₁ ov₂ : List String)
    (hb : base₁ = base₂) (ht : table₁ = table₂) (hs : sel₁ = sel₂)
    (ho : ov₁ = ov₂) :
    resolveClassString base₁ table₁ sel₁ ov₁ =
      resolveClassString base₂ table₂ sel₂ ov₂ := by
  subst hb; subst ht; subst hs; subst ho
  rfl

/-- Witness for C4 at the Button table with the outline and lg selection. -/
theorem variant_resolution_deterministic_witness :
    resolveClassString ["inline-flex"] buttonVariantTable selOutlineLg [] =
      resolveClassString ["inline-flex"] buttonVariantTable selOutlineLg [] :=
  variant_resolution_deterministic ["inline-flex"] ["inline-flex"]
    buttonVariantTable buttonVariantTable selOutlineLg selOutlineLg [] []
    rfl rfl rfl rfl

/-- C5: resolving the selection variant outline and size lg against the
Button table yields a class string containing the fragments border and
h-12 px-8, and no other fragment of any entry of the table appears in the
resolved parts. -/
theorem variant_resolution_outline_lg_example :
    resolveClassString [] buttonVariantTable selOutlineLg [] = "border h-12 px-8" ∧
    "border" ∈ resolveParts [] buttonVariantTable selOutlineLg [] ∧
    "h-12 px-8" ∈ resolveParts [] buttonVariantTable selOutlineLg [] ∧
    ((buttonVariantTable.map (fun k => k.entries.map Prod.snd)).flatten.filter
      (fun f => decide (f ∈ resolveParts [] buttonVariantTable selOutlineLg []))) =
      ["border", "h-12 px-8"] := by
  refine ⟨rfl, ?_, ?_, ?_⟩ <;> decide

/-- C6: for every CustomButton configuration and every external reference,
the wrapper forwards that reference to the single root button element it
renders, unconditionally in the prop values (including isLoading and
disabled). -/
theorem customButton_forwards_ref (p : CustomButtonProps) (ref : Option Nat) :
    nodeRef (renderCustomButton p ref) = ref ∧
    ∃ cl d ct, renderCustomButton p ref = Node.button ref cl d ct :=
  ⟨rfl, _, _, _, rfl⟩

/-- C7: rendering CustomButton is a deterministic function of the props and
the forwarded reference: two renders with identical inputs produce
structurally identical output nodes. -/
theorem customButton_render_deterministic
    (p₁ p₂ : CustomButtonProps) (r₁ r₂ : Option Nat)
    (hp : p₁ = p₂) (hr : r₁ = r₂) :
    renderCustomButton p₁ r₁ = renderCustomButton p₂ r₂ := by
  subst hp; subst hr
  rfl

/-- Witness for C7 at a concrete loading configuration. -/
theorem customButton_render_deterministic_witness :
    renderCustomButton { children := "Submit", isLoading := true } (some 7) =
      renderCustomButton { children := "Submit", isLoading := true } (some 7) :=
  customButton_render_deterministic
    { children := "Submit", isLoading := true }
    { children := "Submit", isLoading := true } (some 7) (some 7) rfl rfl

/-- C8: when isLoading is true the rendered button is disabled regardless of
the disabled prop and shows loadingText instead of the children; when
isLoading is false the children are rendered and disabled equals the
supplied disabled prop; loadingText defaults to "Loading...". -/
theorem customButton_loading_behavior (p : CustomButtonProps) (ref : Option Nat) :
    (p.isLoading = true →
      nodeDisabled (renderCustomButton p ref) = true ∧
      nodeContent (renderCustomButton p ref) = p.loadingText) ∧
    (p.isLoading = false →
      nodeContent (renderCustomButton p ref) = p.children ∧
      nodeDisabled (renderCustomButton p ref) = p.disabled) ∧
    CustomButtonProps.loadingText {} = "Loading..." := by
  refine ⟨?_, ?_, rfl⟩
  · intro h
    constructor
    · simp [renderCustomButton, renderButton, nodeDisabled, h]
    · simp [renderCustomButton, renderButton, nodeContent, h]
  · intro h
    constructor
    · simp [renderCustomButton, renderButton, nodeContent, h]
    · simp [renderCustomButton, renderButton, nodeDisabled, h]

/-- Witness for C8: a loading button with disabled false is still disabled
and shows the default loading text. -/
theorem customButton_loading_behavior_witness :
    nodeDisabled (renderCustomButton
      { children := "Submit", isLoading := true, disabled := false } none) = true ∧
    nodeContent (renderCustomButton
      { children := "Submit", isLoading := true, disabled := false } none) =
      CustomButtonProps.loadingText
        { children := "Submit", isLoading := true, disabled := false } :=
  (customButton_loading_behavior
    { children := "Submit", isLoading := true, disabled := false } none).1 rfl

/-- C9: invoking the clear action of the composed search input resets the
controlled value to the empty string and invokes onChange with the empty
string exactly once. -/
theorem searchInput_clear_resets_and_notifies (v : String) :
    (searchInputClear v).newValue = "" ∧
    (searchInputClear v).onChangeCalls = [""] ∧
    (searchInputClear v).onChangeCalls.count "" = 1 :=
  ⟨rfl, rfl, rfl⟩

/-- C10: evaluation of the Button story default export as embedded from
src/README.md lines 345-359: it names the wrapped component and a table of
controllable fields for variant and size, but declares no display title,
contrary to the claim and to the story rules of src/unnamed/part_000. -/
theorem buttonMeta_lacks_title :
    buttonMeta.title = none ∧
    buttonMeta.component = "Button" ∧
    buttonMeta.argTypes.length = 2 ∧
    (buttonMeta.argTypes.map Prod.fst) = ["variant", "size"] :=
  ⟨rfl, rfl, rfl, rfl⟩

end DesignSystem
